import Mathlib

/-!
Verification development for the HX711 multi-channel sampler
(`Programmering/HX711_bits_reader.py`).

The driver (`HX711.read_raw`) is embedded as a pure function over a device
oracle that records the wire activity (clock edges and data-line samples) it
generates.  The sampler (`read_three_hx711`) is embedded as a pure function
over a per-tick oracle supplying each channel's read outcome, the barrier
state, and the measured clock readings.
-/

namespace HX711Repo

/-! ### Wire-level driver model (`HX711`, lines 34-88) -/

/-- One observable event on a channel's two wires: the clock line raised,
the data line sampled (with the level observed), or the clock line dropped. -/
inductive WireEvent where
  | clockHigh
  | sample (b : Bool)
  | clockLow
deriving DecidableEq

/-- `HX711Config` (lines 23-31): pins plus the number of extra gain pulses. -/
structure HX711Config where
  dout_gpio : Nat
  sck_gpio : Nat
  gain_pulses : Nat := 1

/-- Environment oracle for one `read_raw` call: whether `wait_ready`
(lines 48-54) observes readiness within the timeout, and the level of the
data line at the k-th clock-high sampling instant (line 75). -/
structure DeviceState where
  ready : Bool
  doutBits : Nat → Bool

/-- The only failure `read_raw` raises itself (line 67). -/
inductive HXError where
  | timeout
deriving DecidableEq

/-- `bit = 1 if self.dout.value else 0` (line 75). -/
def bitOf (b : Bool) : Nat := if b then 1 else 0

/-- Wire events of one sampling pulse (lines 72-79): clock raised, data
sampled while the clock is high, clock dropped. -/
def samplePulse (b : Bool) : List WireEvent := [.clockHigh, .sample b, .clockLow]

/-- Wire events of `_pulse` (lines 56-60): clock raised then dropped, no
data sampling. -/
def gainPulse : List WireEvent := [.clockHigh, .clockLow]

/-- The 24-iteration read loop (lines 70-79): starting from `value = 0`,
each iteration raises the clock, samples one bit, shifts it in with
`value = (value << 1) | bit`, and drops the clock. -/
def read24Aux (bits : Nat → Bool) (n : Nat) : Nat × List WireEvent :=
  (List.range n).foldl
    (fun acc k => ((acc.1 <<< 1) ||| bitOf (bits k), acc.2 ++ samplePulse (bits k)))
    (0, [])

def read24 (bits : Nat → Bool) : Nat × List WireEvent := read24Aux bits 24

/-- Trace of the gain-setting pulses (lines 82-83). -/
def gainTrace (n : Nat) : List WireEvent := (List.range n).flatMap fun _ => gainPulse

/-- Two's-complement decode (lines 86-87): `if value & 0x800000: value -= 1 << 24`. -/
def twosComplement24 (value : Nat) : Int :=
  if value &&& 0x800000 ≠ 0 then (value : Int) - ((1 <<< 24 : Nat) : Int) else (value : Int)

/-- `HX711.read_raw` (lines 62-88) over a device oracle, returning the
result together with the full wire trace it generated.  If `wait_ready`
fails the `TimeoutError` is raised before any clock activity (lines 66-67);
otherwise 24 sampling pulses are issued, then `gain_pulses` extra pulses,
and the accumulated value is decoded as 24-bit two's complement. -/
def read_raw (cfg : HX711Config) (dev : DeviceState) : Except HXError Int × List WireEvent :=
  if dev.ready then
    let r := read24 dev.doutBits
    (.ok (twosComplement24 r.1), r.2 ++ gainTrace cfg.gain_pulses)
  else
    (.error .timeout, [])

/-! ### Trace instrumentation -/

def isClockHigh : WireEvent → Bool
  | .clockHigh => true
  | _ => false

def isSample : WireEvent → Bool
  | .sample _ => true
  | _ => false

/-- Number of clock pulses in a trace = number of rising edges. -/
def clockPulses (tr : List WireEvent) : Nat := tr.countP isClockHigh

/-- Number of data-line samplings in a trace. -/
def sampleCount (tr : List WireEvent) : Nat := tr.countP isSample

/-! ### Driver lemmas -/

lemma read24Aux_succ (bits : Nat → Bool) (n : Nat) :
    read24Aux bits (n + 1) =
      (((read24Aux bits n).1 <<< 1) ||| bitOf (bits n),
        (read24Aux bits n).2 ++ samplePulse (bits n)) := by
  unfold read24Aux
  rw [List.range_succ, List.foldl_append]
  rfl

lemma two_mul_lor_one (v : Nat) : (2 * v) ||| 1 = 2 * v + 1 := by
  apply Nat.eq_of_testBit_eq
  intro i
  cases i with
  | zero =>
      simp only [Nat.testBit_lor, Nat.testBit_zero]
      have h1 : (2 * v) % 2 = 0 := by omega
      have h2 : (2 * v + 1) % 2 = 1 := by omega
      simp [h1, h2]
  | succ j =>
      have h1 : (2 * v) / 2 = v := by omega
      have h2 : (2 * v + 1) / 2 = v := by omega
      have h3 : (1 : Nat) / 2 = 0 := by omega
      rw [Nat.testBit_lor, Nat.testBit_succ, Nat.testBit_succ, Nat.testBit_succ, h1, h2, h3]
      simp [Nat.zero_testBit]

lemma shiftLeft_lor_bit (v : Nat) (b : Bool) :
    (v <<< 1) ||| bitOf b = 2 * v + bitOf b := by
  cases b with
  | false =>
      simp [bitOf, Nat.shiftLeft_eq, Nat.or_zero, Nat.mul_comm]
  | true =>
      have h : v <<< 1 = 2 * v := by
        rw [Nat.shiftLeft_eq]; ring
      simp [bitOf, h, two_mul_lor_one]

/-- The accumulated value after `n` iterations, in arithmetic form. -/
lemma read24Aux_fst (bits : Nat → Bool) (n : Nat) :
    (read24Aux bits (n + 1)).1 = 2 * (read24Aux bits n).1 + bitOf (bits n) := by
  rw [read24Aux_succ, shiftLeft_lor_bit]

lemma read24Aux_fst_lt (bits : Nat → Bool) (n : Nat) :
    (read24Aux bits n).1 < 2 ^ n := by
  induction n with
  | zero => simp [read24Aux]
  | succ m ih =>
      rw [read24Aux_fst]
      have hb : bitOf (bits m) ≤ 1 := by
        unfold bitOf; split <;> omega
      have : 2 ^ (m + 1) = 2 * 2 ^ m := by ring
      omega

/-- MSB-first accumulation: bit `k` of the stream lands at weight `2^(n-1-k)`. -/
lemma read24Aux_fst_sum (bits : Nat → Bool) (n : Nat) :
    (read24Aux bits n).1 =
      ∑ k ∈ Finset.range n, (if bits k then 2 ^ (n - 1 - k) else 0) := by
  induction n with
  | zero => simp [read24Aux]
  | succ m ih =>
      rw [read24Aux_fst, ih, Finset.sum_range_succ]
      have hs : (2 : Nat) * ∑ k ∈ Finset.range m, (if bits k then 2 ^ (m - 1 - k) else 0)
          = ∑ k ∈ Finset.range m, (if bits k then 2 ^ (m - k) else 0) := by
        rw [Finset.mul_sum]
        apply Finset.sum_congr rfl
        intro k hk
        have hk' : k < m := Finset.mem_range.mp hk
        have he : m - k = (m - 1 - k) + 1 := by omega
        by_cases h : bits k
        · simp only [h, if_true, he]
          ring
        · simp [h]
      have ht : ∀ k, k < m → ((m + 1) - 1 - k) = m - k := by intro k hk; omega
      have hcong : ∑ k ∈ Finset.range m, (if bits k then 2 ^ ((m + 1) - 1 - k) else 0)
          = ∑ k ∈ Finset.range m, (if bits k then 2 ^ (m - k) else 0) := by
        apply Finset.sum_congr rfl
        intro k hk
        rw [ht k (Finset.mem_range.mp hk)]
      rw [hcong, ← hs]
      have : (m + 1) - 1 - m = 0 := by omega
      rw [this]
      unfold bitOf
      split <;> simp

lemma read24Aux_snd (bits : Nat → Bool) (n : Nat) :
    (read24Aux bits n).2 = (List.range n).flatMap fun k => samplePulse (bits k) := by
  induction n with
  | zero => simp [read24Aux]
  | succ m ih =>
      rw [read24Aux_succ, ih, List.range_succ, List.flatMap_append]
      simp

lemma countP_samplePulse_clock (b : Bool) : (samplePulse b).countP isClockHigh = 1 := by
  simp [samplePulse, List.countP_cons, isClockHigh]

lemma countP_samplePulse_sample (b : Bool) : (samplePulse b).countP isSample = 1 := by
  simp [samplePulse, List.countP_cons, isSample]

lemma clockPulses_flatMap_samplePulses (bits : Nat → Bool) (n : Nat) :
    clockPulses ((List.range n).flatMap fun k => samplePulse (bits k)) = n := by
  unfold clockPulses
  induction n with
  | zero => simp
  | succ m ih =>
      rw [List.range_succ, List.flatMap_append, List.countP_append, ih]
      simp [countP_samplePulse_clock]

lemma sampleCount_flatMap_samplePulses (bits : Nat → Bool) (n : Nat) :
    sampleCount ((List.range n).flatMap fun k => samplePulse (bits k)) = n := by
  unfold sampleCount
  induction n with
  | zero => simp
  | succ m ih =>
      rw [List.range_succ, List.flatMap_append, List.countP_append, ih]
      simp [countP_samplePulse_sample]

lemma clockPulses_gainTrace (n : Nat) : clockPulses (gainTrace n) = n := by
  unfold clockPulses gainTrace
  induction n with
  | zero => simp
  | succ m ih =>
      rw [List.range_succ, List.flatMap_append, List.countP_append, ih]
      simp [gainPulse, List.countP_cons, isClockHigh]

lemma sampleCount_gainTrace (n : Nat) : sampleCount (gainTrace n) = 0 := by
  unfold sampleCount gainTrace
  induction n with
  | zero => simp
  | succ m ih =>
      rw [List.range_succ, List.flatMap_append, List.countP_append, ih]
      simp [gainPulse, List.countP_cons, isSample]

/-! ### Sampler model (`read_three_hx711`, lines 103-205)

The sampler is embedded as a pure function over a per-tick oracle.  The
error type `ε` is kept abstract because the worker (lines 133-142) catches
every `Exception`, not only the driver's `TimeoutError`. -/

/-- Per-session oracle: `readsT c i t` is the outcome of `read_raw` on
channel `c` at tick `i` when invoked with timeout `t` (the worker passes
`timeout_s=0.25`, line 134); `broken i` says whether the coordinator's
barrier wait at tick `i` raises `BrokenBarrierError` (lines 166-170);
`tRel i` is the `perf_counter() - t_start` reading at tick `i` (line 184);
`nowAt i` is the `perf_counter()` reading at the top of tick `i`
(line 161), used only to decide whether to sleep. -/
structure Oracle (ε : Type) where
  readsT : Nat → Nat → ℚ → Except ε Int
  broken : Nat → Bool
  tRel : Nat → ℚ
  nowAt : Nat → ℚ

/-- The timeout every worker passes to `read_raw` (line 134: `timeout_s=0.25`). -/
def workerTimeout : ℚ := 1 / 4

/-- Worker result handling (lines 133-138): a successful read stores the
value with no error; any exception stores the sentinel `0` and the
exception object. -/
def workerResult {ε : Type} : Except ε Int → Int × Option ε
  | .ok v => (v, none)
  | .error e => (0, some e)

/-- `Sample` (lines 95-100). -/
structure Sample where
  t : ℚ
  raw1 : Int
  raw2 : Int
  raw3 : Int
deriving DecidableEq

/-- Value of a channel slot in a row, channels numbered 0,1,2. -/
def Sample.chan (s : Sample) : Nat → Int
  | 0 => s.raw1
  | 1 => s.raw2
  | _ => s.raw3

/-- Everything the coordinator produces for one completed tick: the tick's
scheduled due time (`next_t` at the top of the iteration), whether the
coordinator slept (line 162-163: `now < next_t`), the appended `Sample`
(line 185), and the per-channel errors collected for the diagnostic print
(lines 175-182). -/
structure Tick (ε : Type) where
  due : ℚ
  slept : Bool
  samp : Sample
  errs : Option ε × Option ε × Option ε

/-- Error slot of a channel in a tick, channels numbered 0,1,2. -/
def Tick.chanErr {ε : Type} (tk : Tick ε) : Nat → Option ε
  | 0 => tk.errs.1
  | 1 => tk.errs.2.1
  | _ => tk.errs.2.2

/-- One loop iteration's observable product (lines 159-187): the three
workers read their channels with the fixed `workerTimeout` and store
value/error pairs; the coordinator copies them out and appends a `Sample`
with the measured relative time. -/
def mkTick {ε : Type} (o : Oracle ε) (i : Nat) (next_t : ℚ) : Tick ε :=
  let r1 := workerResult (o.readsT 0 i workerTimeout)
  let r2 := workerResult (o.readsT 1 i workerTimeout)
  let r3 := workerResult (o.readsT 2 i workerTimeout)
  { due := next_t
    slept := decide (o.nowAt i < next_t)
    samp := { t := o.tRel i, raw1 := r1.1, raw2 := r2.1, raw3 := r3.1 }
    errs := (r1.2, r2.2, r3.2) }

/-- The coordinator's sampling loop (lines 159-187): starting at tick `i`
with due time `next_t` and `fuel` remaining iterations, a broken barrier
terminates the loop (line 170: `break`) before a row is appended; otherwise
a tick is produced and the loop continues with `next_t + period`
(line 187: `next_t += period` — the period is added to the previous due
time, never to the current clock reading). -/
def runFrom {ε : Type} (o : Oracle ε) (period : ℚ) : Nat → ℚ → Nat → List (Tick ε)
  | _, _, 0 => []
  | i, next_t, fuel + 1 =>
    if o.broken i then []
    else mkTick o i next_t :: runFrom o period (i + 1) (next_t + period) fuel

/-- Python `int()` applied to a number: truncation toward zero (line 116). -/
def pyInt (q : ℚ) : Int := if 0 ≤ q then ⌊q⌋ else ⌈q⌉

/-- `n_samples = int(duration_s * rate_hz)` (line 116); a non-positive
count yields an empty `range`. -/
def nSamples (duration_s rate_hz : ℚ) : Nat := (pyInt (duration_s * rate_hz)).toNat

/-- Number of worker threads spawned (line 150: `range(3)`). -/
def numWorkers : Nat := 3

/-- Parties of the rendezvous (line 118: `threading.Barrier(4)`). -/
def barrierParties : Nat := 4

/-! ### Recorder model (lines 195-203) -/

/-- CSV header written at line 199. -/
def headerRow : String := "t_s,raw_1,raw_2,raw_3"

/-- The six digits after the decimal point of `f"{t:.6f}"`, most
significant first. -/
def pad6 (m : Nat) : String :=
  String.mk ((List.range 6).map fun k => Nat.digitChar (m / 10 ^ (5 - k) % 10))

/-- Fixed-point rendering with six decimal places, modelling Python's
`f"{r.t:.6f}"` (line 201) over exact rationals: the value is scaled by
10^6, rounded to the nearest integer, and printed as integer part, a dot,
and exactly six fractional digits. -/
def fmt6 (q : ℚ) : String :=
  let n : Int := round (q * 1000000)
  (if n < 0 then String.mk ['-'] else String.mk []) ++
    toString (n.natAbs / 1000000) ++ String.mk ['.'] ++ pad6 (n.natAbs % 1000000)

/-- One CSV data row (line 201): formatted time, then the three raw
readings in plain base-10, comma-separated. -/
def csvRow (r : Sample) : String :=
  fmt6 r.t ++ String.mk [','] ++ toString r.raw1 ++ String.mk [','] ++
    toString r.raw2 ++ String.mk [','] ++ toString r.raw3

/-- The lines written to the CSV file (lines 197-201): header then one row
per collected sample, in order. -/
def csvLines (rows : List Sample) : List String :=
  headerRow :: rows.map csvRow

/-- Result of a session: the collected ticks and, when an output path was
supplied, the lines of the written file. -/
structure SessionResult (ε : Type) where
  ticks : List (Tick ε)
  csv : Option (List String)

/-- `read_three_hx711` (lines 103-205) over a session oracle: the
`assert len(hx_list) == 3` (line 113) makes the call fail (return `none`)
for any other channel count; otherwise the coordinator runs
`n_samples = int(duration_s * rate_hz)` iterations from due time
`t_start` with period `1 / rate_hz` (lines 115-116, 156-157), and the CSV
is produced only when `outfile` is supplied (line 196). -/
def read_three_hx711 {ε : Type} (o : Oracle ε) (hx_count : Nat)
    (rate_hz duration_s t_start : ℚ) (outfile : Option String) :
    Option (SessionResult ε) :=
  if hx_count = 3 then
    some { ticks := runFrom o (1 / rate_hz) 0 t_start (nSamples duration_s rate_hz)
           csv := outfile.map fun _ =>
             csvLines ((runFrom o (1 / rate_hz) 0 t_start
               (nSamples duration_s rate_hz)).map Tick.samp) }
  else none

lemma read_three_spec {ε : Type} (o : Oracle ε) (rate dur t0 : ℚ) (f : Option String) :
    read_three_hx711 o 3 rate dur t0 f
      = some { ticks := runFrom o (1 / rate) 0 t0 (nSamples dur rate)
               csv := f.map fun _ =>
                 csvLines ((runFrom o (1 / rate) 0 t0 (nSamples dur rate)).map Tick.samp) } :=
  rfl

/-! ### Coordinator-loop lemmas -/

lemma runFrom_getElem?_eq {ε : Type} (o : Oracle ε) (period : ℚ) (j : Nat) :
    ∀ (fuel i0 : Nat) (t : ℚ), j < fuel → (∀ l, l ≤ j → o.broken (i0 + l) = false) →
      (runFrom o period i0 t fuel)[j]? = some (mkTick o (i0 + j) (t + j * period)) := by
  induction j with
  | zero =>
      intro fuel i0 t hj hb
      cases fuel with
      | zero => omega
      | succ f =>
          have h0 : o.broken i0 = false := by simpa using hb 0 (le_refl 0)
          simp [runFrom, h0]
  | succ j ih =>
      intro fuel i0 t hj hb
      cases fuel with
      | zero => omega
      | succ f =>
          have h0 : o.broken i0 = false := by simpa using hb 0 (Nat.zero_le _)
          have hb' : ∀ l, l ≤ j → o.broken (i0 + 1 + l) = false := by
            intro l hl
            have := hb (l + 1) (by omega)
            have e : i0 + (l + 1) = i0 + 1 + l := by omega
            rwa [e] at this
          have ih' := ih f (i0 + 1) (t + period) (by omega) hb'
          have e1 : i0 + 1 + j = i0 + (j + 1) := by omega
          have e2 : t + period + (j : ℚ) * period = t + ((j : ℚ) + 1) * period := by ring
          rw [e1, e2] at ih'
          simp only [runFrom, h0, Bool.false_eq_true, if_false, List.getElem?_cons_succ]
          rw [ih']
          push_cast
          ring_nf

lemma runFrom_getElem?_inv {ε : Type} (o : Oracle ε) (period : ℚ) (j : Nat) :
    ∀ (fuel i0 : Nat) (t : ℚ) (tk : Tick ε),
      (runFrom o period i0 t fuel)[j]? = some tk →
      j < fuel ∧ (∀ l, l ≤ j → o.broken (i0 + l) = false) ∧
        tk = mkTick o (i0 + j) (t + j * period) := by
  induction j with
  | zero =>
      intro fuel i0 t tk h
      cases fuel with
      | zero => simp [runFrom] at h
      | succ f =>
          by_cases hbr : o.broken i0
          · simp [runFrom, hbr] at h
          · simp only [runFrom, hbr, Bool.false_eq_true, if_false,
              List.getElem?_cons_zero, Option.some.injEq] at h
            refine ⟨by omega, ?_, ?_⟩
            · intro l hl
              have : l = 0 := by omega
              subst this
              simpa using hbr
            · simp [← h]
  | succ j ih =>
      intro fuel i0 t tk h
      cases fuel with
      | zero => simp [runFrom] at h
      | succ f =>
          by_cases hbr : o.broken i0
          · simp [runFrom, hbr] at h
          · simp only [runFrom, hbr, Bool.false_eq_true, if_false,
              List.getElem?_cons_succ] at h
            obtain ⟨h1, h2, h3⟩ := ih f (i0 + 1) (t + period) tk h
            refine ⟨by omega, ?_, ?_⟩
            · intro l hl
              cases l with
              | zero => simpa using hbr
              | succ m =>
                  have := h2 m (by omega)
                  have e : i0 + 1 + m = i0 + (m + 1) := by omega
                  rwa [e] at this
            · rw [h3]
              have e1 : i0 + 1 + j = i0 + (j + 1) := by omega
              have e2 : t + period + (j : ℚ) * period = t + ((j : ℚ) + 1) * period := by ring
              rw [e1, e2]
              push_cast
              ring_nf

lemma runFrom_length_no_break {ε : Type} (o : Oracle ε) (period : ℚ) :
    ∀ (fuel i0 : Nat) (t : ℚ), (∀ l, l < fuel → o.broken (i0 + l) = false) →
      (runFrom o period i0 t fuel).length = fuel := by
  intro fuel
  induction fuel with
  | zero => intro i0 t _; simp [runFrom]
  | succ f ih =>
      intro i0 t hb
      have h0 : o.broken i0 = false := by simpa using hb 0 (by omega)
      have hb' : ∀ l, l < f → o.broken (i0 + 1 + l) = false := by
        intro l hl
        have := hb (l + 1) (by omega)
        have e : i0 + (l + 1) = i0 + 1 + l := by omega
        rwa [e] at this
      simp [runFrom, h0, ih (i0 + 1) (t + period) hb']

lemma runFrom_length_break {ε : Type} (o : Oracle ε) (period : ℚ) (b : Nat) :
    ∀ (fuel i0 : Nat) (t : ℚ), o.broken (i0 + b) = true →
      (∀ l, l < b → o.broken (i0 + l) = false) → b < fuel →
      (runFrom o period i0 t fuel).length = b := by
  induction b with
  | zero =>
      intro fuel i0 t hbr _ hlt
      cases fuel with
      | zero => omega
      | succ f =>
          have h0 : o.broken i0 = true := by simpa using hbr
          simp [runFrom, h0]
  | succ b ih =>
      intro fuel i0 t hbr hfirst hlt
      cases fuel with
      | zero => omega
      | succ f =>
          have h0 : o.broken i0 = false := by simpa using hfirst 0 (by omega)
          have hbr' : o.broken (i0 + 1 + b) = true := by
            have e : i0 + 1 + b = i0 + (b + 1) := by omega
            rwa [e]
          have hfirst' : ∀ l, l < b → o.broken (i0 + 1 + l) = false := by
            intro l hl
            have := hfirst (l + 1) (by omega)
            have e : i0 + (l + 1) = i0 + 1 + l := by omega
            rwa [e] at this
          simp [runFrom, h0, ih f (i0 + 1) (t + period) hbr' hfirst' (by omega)]

lemma runFrom_length_congr {ε ε' : Type} (o : Oracle ε) (o' : Oracle ε')
    (period period' : ℚ) (hb : ∀ l, o.broken l = o'.broken l) :
    ∀ (fuel i0 : Nat) (t t' : ℚ),
      (runFrom o period i0 t fuel).length = (runFrom o' period' i0 t' fuel).length := by
  intro fuel
  induction fuel with
  | zero => intro i0 t t'; simp [runFrom]
  | succ f ih =>
      intro i0 t t'
      by_cases h0 : o.broken i0
      · simp [runFrom, h0, ← hb i0]
      · have h0' : o'.broken i0 = false := by rw [← hb i0]; simpa using h0
        simp only [runFrom, h0', (by simpa using h0 : o.broken i0 = false),
          Bool.false_eq_true, if_false, List.length_cons]
        rw [ih (i0 + 1) (t + period) (t' + period')]

lemma mkTick_congr {ε : Type} (o o' : Oracle ε)
    (hr : ∀ c i, o.readsT c i workerTimeout = o'.readsT c i workerTimeout)
    (ht : ∀ i, o.tRel i = o'.tRel i) (hn : ∀ i, o.nowAt i = o'.nowAt i)
    (i : Nat) (next_t : ℚ) : mkTick o i next_t = mkTick o' i next_t := by
  simp [mkTick, hr, ht, hn]

lemma runFrom_congr {ε : Type} (o o' : Oracle ε)
    (hr : ∀ c i, o.readsT c i workerTimeout = o'.readsT c i workerTimeout)
    (hb : ∀ i, o.broken i = o'.broken i) (ht : ∀ i, o.tRel i = o'.tRel i)
    (hn : ∀ i, o.nowAt i = o'.nowAt i) (period : ℚ) :
    ∀ (fuel i0 : Nat) (t : ℚ), runFrom o period i0 t fuel = runFrom o' period i0 t fuel := by
  intro fuel
  induction fuel with
  | zero => intro i0 t; simp [runFrom]
  | succ f ih =>
      intro i0 t
      by_cases h0 : o.broken i0
      · simp [runFrom, h0, ← hb i0]
      · have h0' : o'.broken i0 = false := by rw [← hb i0]; simpa using h0
        simp [runFrom, h0', (by simpa using h0 : o.broken i0 = false),
          mkTick_congr o o' hr ht hn, ih (i0 + 1)]

/-! ### Recorder lemmas -/

/-- Number of characters after the last dot of a string. -/
def decimalsAfterDot (s : String) : Nat :=
  (s.data.reverse.takeWhile fun c => c != '.').length

lemma takeWhile_all_stop {α : Type} (p : α → Bool) :
    ∀ (l₁ : List α) (b : α) (l₂ : List α), (∀ a ∈ l₁, p a = true) → p b = false →
      (l₁ ++ b :: l₂).takeWhile p = l₁ := by
  intro l₁
  induction l₁ with
  | nil =>
      intro b l₂ _ hb
      simp [List.takeWhile_cons, hb]
  | cons a t ih =>
      intro b l₂ hall hb
      have ha := hall a (by simp)
      simp [List.takeWhile_cons, ha, ih b l₂ (fun x hx => hall x (by simp [hx])) hb]

lemma pad6_data (m : Nat) :
    (pad6 m).data = (List.range 6).map fun k => Nat.digitChar (m / 10 ^ (5 - k) % 10) := rfl

lemma pad6_no_dot (m : Nat) : ∀ c ∈ (pad6 m).data, (c != '.') = true := by
  rw [pad6_data]
  intro c hc
  simp only [List.mem_map] at hc
  obtain ⟨k, _, rfl⟩ := hc
  have h10 : m / 10 ^ (5 - k) % 10 < 10 := Nat.mod_lt _ (by omega)
  revert h10
  generalize m / 10 ^ (5 - k) % 10 = d
  revert d
  decide

lemma decimalsAfterDot_append_pad6 (s : String) (m : Nat) :
    decimalsAfterDot (s ++ String.mk ['.'] ++ pad6 m) = 6 := by
  unfold decimalsAfterDot
  have hdata : (s ++ String.mk ['.'] ++ pad6 m).data
      = s.data ++ ('.' :: (pad6 m).data) := by
    simp [String.data_append]
  rw [hdata, List.reverse_append, List.reverse_cons, List.append_assoc]
  have hstop : (((pad6 m).data.reverse ++ (['.'] ++ s.data.reverse)).takeWhile
      fun c => c != '.') = (pad6 m).data.reverse := by
    have hsingle : (['.'] ++ s.data.reverse) = '.' :: s.data.reverse := by simp
    rw [hsingle]
    apply takeWhile_all_stop
    · intro a ha
      exact pad6_no_dot m a (List.mem_reverse.mp ha)
    · decide
  rw [hstop, List.length_reverse, pad6_data]
  simp

/-- `fmt6` always renders exactly six digits after the decimal point. -/
lemma decimalsAfterDot_fmt6 (q : ℚ) : decimalsAfterDot (fmt6 q) = 6 :=
  decimalsAfterDot_append_pad6 _ _

lemma csvLines_head (rows : List Sample) : (csvLines rows)[0]? = some headerRow := by
  simp [csvLines]

lemma csvLines_length (rows : List Sample) :
    (csvLines rows).length = rows.length + 1 := by
  simp [csvLines]

lemma csvLines_row (rows : List Sample) (j : Nat) (s : Sample)
    (h : rows[j]? = some s) : (csvLines rows)[j + 1]? = some (csvRow s) := by
  simp [csvLines, h]

/-! ### Decode helper lemmas -/

lemma clockPulses_append (a b : List WireEvent) :
    clockPulses (a ++ b) = clockPulses a + clockPulses b := List.countP_append _ _ _

lemma sampleCount_append (a b : List WireEvent) :
    sampleCount (a ++ b) = sampleCount a + sampleCount b := List.countP_append _ _ _

lemma and_msb (v : Nat) : v &&& 0x800000 = (v.testBit 23).toNat * 2 ^ 23 := by
  have h := Nat.and_two_pow v 23
  norm_num at h ⊢
  exact h

lemma twosComplement24_of_testBit_false {v : Nat} (htb : v.testBit 23 = false) :
    twosComplement24 v = (v : Int) := by
  unfold twosComplement24
  rw [and_msb, htb]
  simp

lemma twosComplement24_of_testBit_true {v : Nat} (htb : v.testBit 23 = true) :
    twosComplement24 v = (v : Int) - 2 ^ 24 := by
  unfold twosComplement24
  rw [and_msb, htb]
  have e : ((1 <<< 24 : Nat) : Int) = 2 ^ 24 := by norm_num [Nat.shiftLeft_eq]
  rw [e]
  norm_num

lemma twosComplement24_bounds {v : Nat} (h : v < 2 ^ 24) :
    -8388608 ≤ twosComplement24 v ∧ twosComplement24 v ≤ 8388607 := by
  norm_num at h
  by_cases htb : v.testBit 23
  · rw [twosComplement24_of_testBit_true htb]
    have hand : v &&& 0x800000 = 8388608 := by
      rw [and_msb, htb]
      norm_num
    have hge : (8388608 : Nat) ≤ v := by
      calc (8388608 : Nat) = v &&& 0x800000 := hand.symm
        _ ≤ v := Nat.and_le_left
    have h1 : (v : Int) < 16777216 := by exact_mod_cast h
    have h2 : (8388608 : Int) ≤ (v : Int) := by exact_mod_cast hge
    norm_num
    omega
  · have htb' : v.testBit 23 = false := by simpa using htb
    rw [twosComplement24_of_testBit_false htb']
    have hlt : v < 8388608 := by
      by_contra hge
      push_neg at hge
      have h1 : v / 8388608 = 1 := by
        have hub : v < 2 * 8388608 := by omega
        omega
      have : v.testBit 23 = true := by
        rw [Nat.testBit_to_div_mod]
        have e : (2 : Nat) ^ 23 = 8388608 := by norm_num
        rw [e, h1]
        decide
      exact absurd this (by simpa using htb)
    have h1 : (v : Int) < 8388608 := by exact_mod_cast hlt
    have h2 : (0 : Int) ≤ (v : Int) := Int.natCast_nonneg v
    omega

/-! ### Claim theorems -/

/-- Claim C1: when the device asserts readiness within the timeout,
`read_raw` issues exactly 24 sampling clock pulses — the data line sampled
once per pulse (MSB first) while the clock is high, then the clock dropped
low, the bits accumulated into an unsigned 24-bit value — followed by
exactly `gain_pulses` extra clock pulses with no data sampling; when the
device never asserts readiness within the timeout, `read_raw` raises the
timeout error and issues zero clock pulses. -/
theorem read_raw_pulse_contract (cfg : HX711Config) (dev : DeviceState) :
    (dev.ready = true →
      (read_raw cfg dev).2
          = ((List.range 24).flatMap fun k => samplePulse (dev.doutBits k))
            ++ gainTrace cfg.gain_pulses ∧
      clockPulses (read_raw cfg dev).2 = 24 + cfg.gain_pulses ∧
      sampleCount (read_raw cfg dev).2 = 24 ∧
      clockPulses (gainTrace cfg.gain_pulses) = cfg.gain_pulses ∧
      sampleCount (gainTrace cfg.gain_pulses) = 0 ∧
      (read_raw cfg dev).1 = .ok (twosComplement24 (read24 dev.doutBits).1) ∧
      (read24 dev.doutBits).1
          = ∑ k ∈ Finset.range 24, (if dev.doutBits k then 2 ^ (23 - k) else 0) ∧
      (read24 dev.doutBits).1 < 2 ^ 24) ∧
    (dev.ready = false →
      (read_raw cfg dev).1 = .error .timeout ∧
      (read_raw cfg dev).2 = [] ∧
      clockPulses (read_raw cfg dev).2 = 0) := by
  constructor
  · intro h
    have htr : (read_raw cfg dev).2 = (read24 dev.doutBits).2 ++ gainTrace cfg.gain_pulses := by
      simp [read_raw, h]
    have hres : (read_raw cfg dev).1 = .ok (twosComplement24 (read24 dev.doutBits).1) := by
      simp [read_raw, h]
    have hsnd : (read24 dev.doutBits).2
        = (List.range 24).flatMap fun k => samplePulse (dev.doutBits k) := by
      unfold read24
      exact read24Aux_snd dev.doutBits 24
    refine ⟨?_, ?_, ?_, clockPulses_gainTrace _, sampleCount_gainTrace _, hres, ?_, ?_⟩
    · rw [htr, hsnd]
    · rw [htr, clockPulses_append, clockPulses_gainTrace, hsnd,
        clockPulses_flatMap_samplePulses]
    · rw [htr, sampleCount_append, sampleCount_gainTrace, hsnd,
        sampleCount_flatMap_samplePulses]
    · unfold read24
      rw [read24Aux_fst_sum]
    · unfold read24
      exact read24Aux_fst_lt dev.doutBits 24
  · intro h
    have htr : read_raw cfg dev = (.error .timeout, []) := by
      simp [read_raw, h]
    rw [htr]
    exact ⟨rfl, rfl, rfl⟩

def cfgW : HX711Config := { dout_gpio := 5, sck_gpio := 6, gain_pulses := 1 }

def devW : DeviceState := { ready := true, doutBits := fun k => decide (k = 23) }

/-- Concrete instance of C1: a ready device with one gain pulse sees
exactly 24 + 1 clock pulses and 24 data samplings. -/
theorem read_raw_pulse_contract_witness :
    clockPulses (read_raw cfgW devW).2 = 24 + cfgW.gain_pulses ∧
    sampleCount (read_raw cfgW devW).2 = 24 :=
  ⟨((read_raw_pulse_contract cfgW devW).1 rfl).2.1,
    ((read_raw_pulse_contract cfgW devW).1 rfl).2.2.1⟩

/-- Claim C2: for every unsigned 24-bit value `v`, the decode returns `v`
when bit 23 is clear and `v - 2^24` when bit 23 is set; `0x000000 → 0`,
`0x7FFFFF → 8388607`, `0x800000 → -8388608`, `0xFFFFFF → -1`; and every
successful `read_raw` result lies in `[-8388608, 8388607]`. -/
theorem twos_complement_decode (v : Nat) (h : v < 2 ^ 24) :
    (v.testBit 23 = false → twosComplement24 v = (v : Int)) ∧
    (v.testBit 23 = true → twosComplement24 v = (v : Int) - 2 ^ 24) ∧
    -8388608 ≤ twosComplement24 v ∧ twosComplement24 v ≤ 8388607 ∧
    twosComplement24 0x000000 = 0 ∧ twosComplement24 0x7FFFFF = 8388607 ∧
    twosComplement24 0x800000 = -8388608 ∧ twosComplement24 0xFFFFFF = -1 ∧
    (∀ (cfg : HX711Config) (dev : DeviceState), dev.ready = true →
      ∃ r : Int, (read_raw cfg dev).1 = .ok r ∧ -8388608 ≤ r ∧ r ≤ 8388607) := by
  refine ⟨fun htb => twosComplement24_of_testBit_false htb,
    fun htb => twosComplement24_of_testBit_true htb,
    (twosComplement24_bounds h).1, (twosComplement24_bounds h).2,
    by decide, by decide, by decide, by decide, ?_⟩
  intro cfg dev hready
  refine ⟨twosComplement24 (read24 dev.doutBits).1, by simp [read_raw, hready], ?_, ?_⟩
  · exact (twosComplement24_bounds (by unfold read24; exact read24Aux_fst_lt dev.doutBits 24)).1
  · exact (twosComplement24_bounds (by unfold read24; exact read24Aux_fst_lt dev.doutBits 24)).2

/-- Concrete instance of C2 at `v = 0xFFFFFF`. -/
theorem twos_complement_decode_witness :
    (Nat.testBit 0xFFFFFF 23 = true → twosComplement24 0xFFFFFF = (0xFFFFFF : Int) - 2 ^ 24) ∧
    -8388608 ≤ twosComplement24 0xFFFFFF :=
  ⟨(twos_complement_decode 0xFFFFFF (by norm_num)).2.1,
    (twos_complement_decode 0xFFFFFF (by norm_num)).2.2.1⟩

/-- Claim C3: in a run of `K` ticks at rate `rate`, the due time the
coordinator uses for the i-th tick equals `t0 + i / rate` exactly,
because the period is always added to the previous due time (line 187) and
never to the current clock reading; the oracle's clock readings (`nowAt`,
`tRel`) are universally quantified, so per-tick overruns cannot shift any
later tick's schedule. -/
theorem schedule_no_drift {ε : Type} (o : Oracle ε) (rate t0 : ℚ) (K i : Nat)
    (hi : i < K) (hnb : ∀ l, l ≤ i → o.broken l = false) :
    ((runFrom o (1 / rate) 0 t0 K).map Tick.due)[i]? = some (t0 + i / rate) := by
  have h := runFrom_getElem?_eq o (1 / rate) i K 0 t0 hi (by simpa using hnb)
  rw [List.getElem?_map, h]
  simp [mkTick]
  ring

def oSched : Oracle Unit :=
  { readsT := fun _ _ _ => .ok 7
    broken := fun _ => false
    tRel := fun i => (i : ℚ) / 19
    nowAt := fun i => (i : ℚ) / 21 }

/-- Concrete instance of C3: third tick of a 20 Hz run is due at 2/20 s
even though the oracle's clock readings drift. -/
theorem schedule_no_drift_witness :
    ((runFrom oSched (1 / 20) 0 0 3).map Tick.due)[2]? = some ((0 : ℚ) + 2 / 20) := by
  have h := schedule_no_drift oSched 20 0 3 2 (by omega) (fun l _ => rfl)
  simpa using h

/-- Claim C4: comparing a session in which exactly one channel `c` errors
at tick `i` with a session agreeing everywhere else: the faulted session's
tick `i` carries sentinel 0 and the recorded error in channel `c`'s slot,
every other channel agrees with the unfaulted session at every tick, every
tick other than `i` agrees completely, the sessions emit the same number
of rows, and the row for tick `i` is still emitted. -/
theorem fault_isolation {ε : Type} (o o2 : Oracle ε) (period t0 : ℚ) (K i c : Nat)
    (e : ε) (hc : c < 3)
    (herr : o.readsT c i workerTimeout = .error e)
    (hagree : ∀ c' j t, ¬(c' = c ∧ j = i) → o.readsT c' j t = o2.readsT c' j t)
    (hb : ∀ j, o.broken j = o2.broken j)
    (ht : ∀ j, o.tRel j = o2.tRel j)
    (hn : ∀ j, o.nowAt j = o2.nowAt j) :
    ((runFrom o period 0 t0 K).length = (runFrom o2 period 0 t0 K).length) ∧
    (∀ j tk tk2, (runFrom o period 0 t0 K)[j]? = some tk →
      (runFrom o2 period 0 t0 K)[j]? = some tk2 →
      (∀ c', c' < 3 → c' ≠ c → tk.samp.chan c' = tk2.samp.chan c') ∧
      tk.samp.t = tk2.samp.t ∧ (j ≠ i → tk = tk2)) ∧
    (∀ tk, (runFrom o period 0 t0 K)[i]? = some tk →
      tk.samp.chan c = 0 ∧ tk.chanErr c = some e) ∧
    ((∀ l, l ≤ i → o.broken l = false) → i < K →
      ∃ tk, (runFrom o period 0 t0 K)[i]? = some tk) := by
  refine ⟨runFrom_length_congr o o2 period period hb K 0 t0 t0, ?_, ?_, ?_⟩
  · intro j tk tk2 h1 h2
    obtain ⟨hj, hnb1, htk⟩ := runFrom_getElem?_inv o period j K 0 t0 tk h1
    obtain ⟨_, _, htk2⟩ := runFrom_getElem?_inv o2 period j K 0 t0 tk2 h2
    subst htk
    subst htk2
    refine ⟨?_, by simp [mkTick, ht j], ?_⟩
    · intro c' hc' hcc
      have ec : o.readsT c' j workerTimeout = o2.readsT c' j workerTimeout :=
        hagree c' j workerTimeout (fun h => hcc h.1)
      interval_cases c' <;> simp [mkTick, Sample.chan, ec]
    · intro hji
      have e0 : o.readsT 0 j workerTimeout = o2.readsT 0 j workerTimeout :=
        hagree 0 j workerTimeout (fun h => hji h.2)
      have e1 : o.readsT 1 j workerTimeout = o2.readsT 1 j workerTimeout :=
        hagree 1 j workerTimeout (fun h => hji h.2)
      have e2 : o.readsT 2 j workerTimeout = o2.readsT 2 j workerTimeout :=
        hagree 2 j workerTimeout (fun h => hji h.2)
      simp [mkTick, e0, e1, e2, ht j, hn j]
  · intro tk h1
    obtain ⟨hj, hnb1, htk⟩ := runFrom_getElem?_inv o period i K 0 t0 tk h1
    subst htk
    constructor
    · interval_cases c <;> simp [mkTick, Sample.chan, workerResult, herr]
    · interval_cases c <;> simp [Tick.chanErr, mkTick, workerResult, herr]
  · intro hnb hiK
    exact ⟨_, runFrom_getElem?_eq o period i K 0 t0 hiK (by simpa using hnb)⟩

def oFault : Oracle Unit :=
  { readsT := fun c i _ => if c = 1 ∧ i = 0 then .error () else .ok 5
    broken := fun _ => false
    tRel := fun _ => 0
    nowAt := fun _ => 0 }

def oClean : Oracle Unit :=
  { readsT := fun _ _ _ => .ok 5
    broken := fun _ => false
    tRel := fun _ => 0
    nowAt := fun _ => 0 }

/-- Concrete instance of C4: channel 2 (index 1) erroring at tick 0 leaves
the session length equal to the clean session's and still emits tick 0
with sentinel 0 and the recorded error in that slot. -/
theorem fault_isolation_witness :
    (runFrom oFault (1 / 20) 0 0 2).length = (runFrom oClean (1 / 20) 0 0 2).length ∧
    ∃ tk, (runFrom oFault (1 / 20) 0 0 2)[0]? = some tk ∧
      tk.samp.chan 1 = 0 ∧ tk.chanErr 1 = some () := by
  have h := fault_isolation oFault oClean (1 / 20) 0 2 0 1 () (by omega)
    (by simp [oFault, workerTimeout])
    (fun c j t hcj => by simp only [oFault, oClean]; rw [if_neg hcj])
    (fun _ => rfl) (fun _ => rfl) (fun _ => rfl)
  obtain ⟨tk, htk⟩ := h.2.2.2 (fun l _ => rfl) (by omega)
  exact ⟨h.1, tk, htk, h.2.2.1 tk htk⟩

/-- Claim C5 (amended): the sampler accepts exactly lists of three
drivers — the `assert len(hx_list) == 3` fails every other count — and
runs 3 workers plus one coordinator with a rendezvous of 4 = 3 + 1
parties; `N` is restricted to 3. -/
theorem sampler_arity {ε : Type} (o : Oracle ε) (n : Nat) (rate dur t0 : ℚ)
    (f : Option String) :
    ((read_three_hx711 o n rate dur t0 f).isSome ↔ n = 3) ∧
    numWorkers = 3 ∧ barrierParties = numWorkers + 1 := by
  refine ⟨?_, rfl, rfl⟩
  unfold read_three_hx711
  by_cases h : n = 3 <;> simp [h]

def oU : Oracle Unit :=
  { readsT := fun _ _ _ => .ok 5
    broken := fun _ => false
    tRel := fun _ => 0
    nowAt := fun _ => 0 }

/-- Counterexample to C5 as stated: `N = 1 ≥ 1`, yet the sampler rejects
the single-driver list (the assertion fails and no session runs). -/
theorem sampler_arity_counterexample :
    (1 : Nat) ≥ 1 ∧ read_three_hx711 oU 1 20 1 0 none = none :=
  ⟨by omega, rfl⟩

/-- Claim C6: with `rate_hz > 0`, `duration_s > 0` and a fault-free
barrier, the session emits exactly `floor(duration_s * rate_hz)` rows
(`int()` truncation coincides with floor on the positive product). -/
theorem bounded_session_row_count {ε : Type} (o : Oracle ε) (rate dur t0 : ℚ)
    (f : Option String) (hr : 0 < rate) (hd : 0 < dur)
    (hnb : ∀ j, o.broken j = false) :
    ∃ res, read_three_hx711 o 3 rate dur t0 f = some res ∧
      res.ticks.length = (⌊dur * rate⌋).toNat ∧
      pyInt (dur * rate) = ⌊dur * rate⌋ := by
  have hpos : 0 ≤ dur * rate := le_of_lt (mul_pos hd hr)
  have hpy : pyInt (dur * rate) = ⌊dur * rate⌋ := by unfold pyInt; simp [hpos]
  refine ⟨{ ticks := runFrom o (1 / rate) 0 t0 (nSamples dur rate)
            csv := f.map fun _ =>
              csvLines ((runFrom o (1 / rate) 0 t0 (nSamples dur rate)).map Tick.samp) },
    rfl, ?_, hpy⟩
  rw [runFrom_length_no_break o (1 / rate) (nSamples dur rate) 0 t0
    (fun l _ => hnb (0 + l))]
  unfold nSamples
  rw [hpy]

/-- Concrete instance of C6: 20 Hz for 1 s yields exactly 20 rows. -/
theorem bounded_session_row_count_witness :
    ∃ res, read_three_hx711 oU 3 20 1 0 none = some res ∧ res.ticks.length = 20 := by
  obtain ⟨res, h1, h2, _⟩ :=
    bounded_session_row_count oU 20 1 0 none (by norm_num) (by norm_num) (fun j => rfl)
  refine ⟨res, h1, ?_⟩
  rw [h2]
  norm_num
  rfl

/-- Claim C7: with an output path, the written file starts with the header
`t_s,raw_1,raw_2,raw_3` (one `raw_k` per configured channel — the sampler
admits exactly three) and holds one line per collected row consisting of
the elapsed time rendered with exactly six decimal places followed by the
three signed readings in plain base-10, an errored channel rendering as
`0`; with no output path, no file is produced. -/
theorem recorder_format {ε : Type} (o : Oracle ε) (rate dur t0 : ℚ) (p : String) :
    (∀ res, read_three_hx711 o 3 rate dur t0 (some p) = some res →
      ∃ lines, res.csv = some lines ∧
        lines[0]? = some headerRow ∧
        headerRow.data = ['t', '_', 's', ',', 'r', 'a', 'w', '_', '1', ',',
          'r', 'a', 'w', '_', '2', ',', 'r', 'a', 'w', '_', '3'] ∧
        lines.length = res.ticks.length + 1 ∧
        (∀ j tk, res.ticks[j]? = some tk →
          lines[j + 1]? = some (fmt6 tk.samp.t ++ String.mk [','] ++ toString tk.samp.raw1
            ++ String.mk [','] ++ toString tk.samp.raw2
            ++ String.mk [','] ++ toString tk.samp.raw3)) ∧
        (∀ q : ℚ, decimalsAfterDot (fmt6 q) = 6) ∧
        (∀ c j ev, c < 3 → o.readsT c j workerTimeout = .error ev →
          ∀ tk, res.ticks[j]? = some tk → tk.samp.chan c = 0)) ∧
    (∀ res, read_three_hx711 o 3 rate dur t0 none = some res → res.csv = none) := by
  constructor
  · intro res hres
    rw [read_three_spec] at hres
    have hres := Option.some.inj hres
    subst hres
    refine ⟨csvLines ((runFrom o (1 / rate) 0 t0 (nSamples dur rate)).map Tick.samp),
      rfl, csvLines_head _, rfl, ?_, ?_, fun q => decimalsAfterDot_fmt6 q, ?_⟩
    · show (csvLines ((runFrom o (1 / rate) 0 t0 (nSamples dur rate)).map Tick.samp)).length
        = (runFrom o (1 / rate) 0 t0 (nSamples dur rate)).length + 1
      rw [csvLines_length, List.length_map]
    · intro j tk htk
      have htk2 : (runFrom o (1 / rate) 0 t0 (nSamples dur rate))[j]? = some tk := htk
      show (csvLines ((runFrom o (1 / rate) 0 t0 (nSamples dur rate)).map Tick.samp))[j + 1]?
        = some (csvRow tk.samp)
      apply csvLines_row
      rw [List.getElem?_map, htk2]
      rfl
    · intro c j ev hc herr tk htk
      have htk2 : (runFrom o (1 / rate) 0 t0 (nSamples dur rate))[j]? = some tk := htk
      obtain ⟨hj, hnb1, htk3⟩ := runFrom_getElem?_inv o (1 / rate) j (nSamples dur rate)
        0 t0 tk htk2
      subst htk3
      interval_cases c <;> simp [mkTick, Sample.chan, workerResult, herr]
  · intro res hres
    rw [read_three_spec] at hres
    have hres := Option.some.inj hres
    subst hres
    rfl

def outNameW : String := "hx711_3ch.csv"

def oMix : Oracle Unit :=
  { readsT := fun c i _ => if c = 1 ∧ i = 0 then .error () else .ok 250
    broken := fun _ => false
    tRel := fun _ => 0
    nowAt := fun _ => 0 }

/-- Concrete instance of C7: a one-tick 20 Hz session with an output path
has a two-line file whose head is the header, and the timeout-suffering
channel 2 renders as 0. -/
theorem recorder_format_witness :
    ∃ res, read_three_hx711 oMix 3 20 (1 / 20) 0 (some outNameW) = some res ∧
      ∃ lines, res.csv = some lines ∧ lines[0]? = some headerRow ∧
        (∀ tk, res.ticks[0]? = some tk → tk.samp.chan 1 = 0) := by
  have h := (recorder_format oMix 20 (1 / 20) 0 outNameW).1
  refine ⟨{ ticks := runFrom oMix (1 / 20) 0 0 (nSamples (1 / 20) 20)
            csv := (some outNameW).map fun _ =>
              csvLines ((runFrom oMix (1 / 20) 0 0 (nSamples (1 / 20) 20)).map Tick.samp) },
    rfl, ?_⟩
  obtain ⟨lines, h1, h2, _, _, _, _, h7⟩ := h _ rfl
  exact ⟨lines, h1, h2, fun tk htk => h7 1 0 () (by omega) (by simp [oMix]) tk htk⟩

/-- Claim C8: a barrier abort first observed at tick `b` of a bounded
session stops sampling immediately — exactly the `b` rows collected before
the abort exist, no row at or past tick `b` is ever emitted — and the
written file still persists every collected row (header plus `b` lines,
in order). -/
theorem abort_stops_session {ε : Type} (o : Oracle ε) (rate dur t0 : ℚ) (p : String)
    (b : Nat) (hbr : o.broken b = true) (hfirst : ∀ l, l < b → o.broken l = false)
    (hlt : b < nSamples dur rate) :
    ∃ res lines, read_three_hx711 o 3 rate dur t0 (some p) = some res ∧
      res.ticks.length = b ∧
      (∀ j, b ≤ j → res.ticks[j]? = none) ∧
      res.csv = some lines ∧
      lines.length = b + 1 ∧
      (∀ j tk, res.ticks[j]? = some tk → lines[j + 1]? = some (csvRow tk.samp)) := by
  have hlen : (runFrom o (1 / rate) 0 t0 (nSamples dur rate)).length = b := by
    apply runFrom_length_break o (1 / rate) b (nSamples dur rate) 0 t0
    · simpa using hbr
    · intro l hl
      simpa using hfirst l hl
    · exact hlt
  refine ⟨{ ticks := runFrom o (1 / rate) 0 t0 (nSamples dur rate)
            csv := (some p).map fun _ =>
              csvLines ((runFrom o (1 / rate) 0 t0 (nSamples dur rate)).map Tick.samp) },
    csvLines ((runFrom o (1 / rate) 0 t0 (nSamples dur rate)).map Tick.samp),
    read_three_spec o rate dur t0 (some p), hlen, ?_, rfl, ?_, ?_⟩
  · intro j hj
    show (runFrom o (1 / rate) 0 t0 (nSamples dur rate))[j]? = none
    apply List.getElem?_eq_none
    rw [hlen]
    exact hj
  · show (csvLines ((runFrom o (1 / rate) 0 t0 (nSamples dur rate)).map Tick.samp)).length
      = b + 1
    rw [csvLines_length, List.length_map, hlen]
  · intro j tk htk
    have htk2 : (runFrom o (1 / rate) 0 t0 (nSamples dur rate))[j]? = some tk := htk
    show (csvLines ((runFrom o (1 / rate) 0 t0 (nSamples dur rate)).map Tick.samp))[j + 1]?
      = some (csvRow tk.samp)
    apply csvLines_row
    rw [List.getElem?_map, htk2]
    rfl

def oBreak : Oracle Unit :=
  { readsT := fun _ _ _ => .ok 5
    broken := fun i => decide (1 ≤ i)
    tRel := fun _ => 0
    nowAt := fun _ => 0 }

/-- Concrete instance of C8: barrier broken from tick 1 onward in a 20-row
session leaves exactly one collected row, and a two-line file. -/
theorem abort_stops_session_witness :
    ∃ res lines, read_three_hx711 oBreak 3 20 1 0 (some outNameW) = some res ∧
      res.ticks.length = 1 ∧ res.csv = some lines ∧ lines.length = 2 := by
  obtain ⟨res, lines, h1, h2, h3, h4, h5, h6⟩ :=
    abort_stops_session oBreak 20 1 0 outNameW 1 rfl
      (fun l hl => by
        have : l = 0 := by omega
        subst this
        rfl)
      (by
        have : nSamples 1 20 = 20 := by
          unfold nSamples pyInt
          norm_num
          rfl
        omega)
  exact ⟨res, lines, h1, h2, h4, h5⟩

/-- Claim C9 (amended): every worker invokes `read_raw` with the fixed
timeout 0.25 s hardcoded at its call site; the sampler's externally
supplied parameters (`rate_hz`, `duration_s`, `outfile`) include no
per-read timeout, so two sessions whose drivers respond identically at
timeout 0.25 — however differently at every other timeout — produce
identical results under every configuration. -/
theorem worker_timeout_fixed {ε : Type} (o o2 : Oracle ε) (n : Nat)
    (rate dur t0 : ℚ) (f : Option String)
    (hr : ∀ c i, o.readsT c i workerTimeout = o2.readsT c i workerTimeout)
    (hb : ∀ i, o.broken i = o2.broken i) (ht : ∀ i, o.tRel i = o2.tRel i)
    (hn : ∀ i, o.nowAt i = o2.nowAt i) :
    read_three_hx711 o n rate dur t0 f = read_three_hx711 o2 n rate dur t0 f ∧
    workerTimeout = 1 / 4 := by
  refine ⟨?_, rfl⟩
  unfold read_three_hx711
  rw [runFrom_congr o o2 hr hb ht hn (1 / rate) (nSamples dur rate) 0 t0]

def oA9 : Oracle Unit :=
  { readsT := fun _ _ t => if t = workerTimeout then .ok 3 else .ok 111
    broken := fun _ => false
    tRel := fun _ => 0
    nowAt := fun _ => 0 }

def oB9 : Oracle Unit :=
  { readsT := fun _ _ _ => .ok 3
    broken := fun _ => false
    tRel := fun _ => 0
    nowAt := fun _ => 0 }

/-- Concrete instance of the amended C9: two oracles agreeing only at
timeout 0.25 produce identical sessions. -/
theorem worker_timeout_fixed_witness :
    read_three_hx711 oA9 3 20 1 0 none = read_three_hx711 oB9 3 20 1 0 none :=
  (worker_timeout_fixed oA9 oB9 3 20 1 0 none (fun c i => by simp [oA9, oB9])
    (fun _ => rfl) (fun _ => rfl) (fun _ => rfl)).1

def oSlow : Oracle Unit :=
  { readsT := fun _ _ t => if 3 / 10 ≤ t then .ok 5 else .error ()
    broken := fun _ => false
    tRel := fun _ => 0
    nowAt := fun _ => 0 }

/-- Counterexample to C9 as stated: a driver that answers within 0.3 s —
so any configurable timeout of at least 0.3 s would succeed — still times
out at every tick under configurations with different rates and durations,
because the worker always passes the constant 0.25 s. -/
theorem worker_timeout_fixed_counterexample :
    oSlow.readsT 0 0 (3 / 10) = .ok 5 ∧
    ((runFrom oSlow (1 / 20) 0 0 1).map fun tk => tk.samp.raw1) = [0] ∧
    ((runFrom oSlow (1 / 50) 0 0 2).map fun tk => tk.samp.raw1) = [0, 0] := by
  have hto : ¬((3 : ℚ) / 10 ≤ workerTimeout) := by
    unfold workerTimeout
    norm_num
  refine ⟨by norm_num [oSlow], ?_, ?_⟩ <;>
    simp [runFrom, mkTick, oSlow, workerResult, hto]

/-- Claim C10: a channel read failing with any exception `e` (of arbitrary
type, not only the driver timeout) at tick `i` leaves the sentinel 0 and
`e` recorded in that worker's own slot of the emitted tick; the session
continues — the tick is still emitted when the barrier is intact, and the
number of emitted rows is entirely independent of read outcomes. -/
theorem worker_swallows_exceptions {ε : Type} (o : Oracle ε) (period t0 : ℚ)
    (K c i : Nat) (e : ε) (hc : c < 3)
    (he : o.readsT c i workerTimeout = .error e) :
    (∀ tk, (runFrom o period 0 t0 K)[i]? = some tk →
      tk.samp.chan c = 0 ∧ tk.chanErr c = some e) ∧
    (∀ o2 : Oracle ε, (∀ j, o.broken j = o2.broken j) →
      (runFrom o period 0 t0 K).length = (runFrom o2 period 0 t0 K).length) ∧
    ((∀ l, l ≤ i → o.broken l = false) → i < K →
      ∃ tk, (runFrom o period 0 t0 K)[i]? = some tk) := by
  refine ⟨?_, ?_, ?_⟩
  · intro tk htk
    obtain ⟨hj, hnb1, htk⟩ := runFrom_getElem?_inv o period i K 0 t0 tk htk
    subst htk
    interval_cases c <;>
      simp [mkTick, Sample.chan, Tick.chanErr, workerResult, he]
  · intro o2 hb
    exact runFrom_length_congr o o2 period period hb K 0 t0 t0
  · intro hnb hiK
    exact ⟨_, runFrom_getElem?_eq o period i K 0 t0 hiK (by simpa using hnb)⟩

def oBoom : Oracle Unit :=
  { readsT := fun c i _ => if c = 0 ∧ i = 0 then .error () else .ok 9
    broken := fun _ => false
    tRel := fun _ => 0
    nowAt := fun _ => 0 }

/-- Concrete instance of C10: channel 1 failing at tick 0 still yields an
emitted tick 0 carrying sentinel 0 and the recorded exception. -/
theorem worker_swallows_exceptions_witness :
    ∃ tk, (runFrom oBoom (1 / 20) 0 0 1)[0]? = some tk ∧
      tk.samp.chan 0 = 0 ∧ tk.chanErr 0 = some () := by
  have h := worker_swallows_exceptions oBoom (1 / 20) 0 1 0 0 ()
    (by omega) (by simp [oBoom])
  obtain ⟨tk, htk⟩ := h.2.2 (fun l _ => rfl) (by omega)
  exact ⟨tk, htk, (h.1 tk htk).1, (h.1 tk htk).2⟩

end HX711Repo
